import Mathlib

/-!
Verification of `Utility_functions.py` (time-series forecasting utilities).

Shallow embedding conventions:
* a pandas Series / 1-D numpy array of floats is a `List ℚ` (or `List ℝ`
  where the source computes square roots);
* a cell that pandas/scipy shifting fills with NaN is `none`, a defined
  cell is `some x`; a 2-D array is a `List` of rows;
* a DataFrame is an association list of named columns
  `List (String × List (Option ℚ))` in column order;
* Python slice / truncation semantics (`xs[a:b]`, `int(...)`, `round(...)`,
  `range(a, b, s)`) are embedded explicitly below.
-/

namespace DSIUtil

/-- `series.shift(i)` / `scipy.ndimage.shift(a, i, cval=NaN)` for `i ≥ 0`:
cell `k` becomes the old cell `k - i`, the first `i` cells become NaN. -/
def shiftP (xs : List (Option ℚ)) (i : ℕ) : List (Option ℚ) :=
  List.replicate (min i xs.length) none ++ xs.take (xs.length - i)

/-- `series.shift(-i)` / `scipy.ndimage.shift(a, -i, cval=NaN)` for `i ≥ 0`:
cell `k` becomes the old cell `k + i`, the last `i` cells become NaN. -/
def shiftN (xs : List (Option ℚ)) (i : ℕ) : List (Option ℚ) :=
  xs.drop i ++ List.replicate (min i xs.length) none

/-- `series.shift(l)` for an arbitrary integer lag `l`. -/
def shiftI (xs : List (Option ℚ)) (l : ℤ) : List (Option ℚ) :=
  if 0 ≤ l then shiftP xs l.toNat else shiftN xs (-l).toNat

/-- Resolution of a Python slice endpoint `i` against a list of length `n`:
nonnegative endpoints are clamped to `n`, negative endpoints count from the
end (clamped to `0`). -/
def pyIdx (n : ℕ) (i : ℤ) : ℕ :=
  if 0 ≤ i then min i.toNat n else n - (-i).toNat

/-- Python `xs[i:]`. -/
def pySliceFrom {α : Type} (xs : List α) (i : ℤ) : List α :=
  xs.drop (pyIdx xs.length i)

/-- Python `xs[:i]`. -/
def pySliceTo {α : Type} (xs : List α) (i : ℤ) : List α :=
  xs.take (pyIdx xs.length i)

/-- Python `xs[a:b]`. -/
def pySlice {α : Type} (xs : List α) (a b : ℤ) : List α :=
  (xs.take (pyIdx xs.length b)).drop (pyIdx xs.length a)

/-- Python `range(start, stop, step)` for a nonnegative `start`/`step`
(`step = 0` raises in Python; it is mapped to the empty list here and
excluded by hypothesis in the theorems that use it). -/
def pyRangeStep (start stop step : ℕ) : List ℕ :=
  if step = 0 then [] else
    (List.range ((stop - start + step - 1) / step)).map (fun k => start + k * step)

/-- Python `int(q)`: truncation toward zero. -/
def pyTrunc (q : ℚ) : ℤ :=
  if 0 ≤ q then ⌊q⌋ else ⌈q⌉

/-- Round to the nearest integer, ties to even (Python `round` on an exact
value). -/
def roundHalfEven (x : ℚ) : ℤ :=
  let n := ⌊x⌋
  if x - n < 1 / 2 then n
  else if 1 / 2 < x - n then n + 1
  else if Even n then n else n + 1

/-- Python `round(x, d)` for `d` decimal digits. -/
def pyRound (x : ℚ) (d : ℕ) : ℚ :=
  (roundHalfEven (x * 10 ^ d) : ℚ) / 10 ^ d

/-- `np.mean` of a 1-D rational array (sum divided by length). -/
def meanQ (xs : List ℚ) : ℚ := xs.sum / xs.length

/-- `np.mean` of a 1-D real array. -/
noncomputable def rmean (xs : List ℝ) : ℝ := xs.sum / xs.length

/-- `np.asarray(cols).T` for a list of equal-length (length `n`) columns:
row `k` collects cell `k` of every column. -/
def npTranspose (cols : List (List (Option ℚ))) (n : ℕ) : List (List (Option ℚ)) :=
  (List.range n).map (fun k => cols.map (fun c => c.getD k none))

/-! ### `create_supervised` (Utility_functions.py lines 74-106)

The pandas-`Series` branch is embedded (`data : List ℚ`); the ndarray
branch applies the identical shifts to the array's first column. -/

/-- Lag block `X`: `look_back+1` shifted copies of the series stacked as
columns (`back` loop, `np.asarray(back).T`), then rows containing NaN
dropped (`X[~np.isnan(X).any(axis=1)]`). -/
def csX (data : List ℚ) (look_back : ℕ) : List (List (Option ℚ)) :=
  (npTranspose ((List.range (look_back + 1)).map (fun i => shiftP (data.map some) i))
      data.length).filter (fun r => r.all Option.isSome)

/-- `X[:,0]`, the unshifted column of the filtered lag block. -/
def csCol0 (data : List ℚ) (look_back : ℕ) : List (Option ℚ) :=
  (csX data look_back).map (fun r => r.getD 0 none)

/-- Lead block `Y`: `n_seq+1` forward shifts of `X[:,0]` stacked as columns,
the shift-0 column discarded (`[:,1:]`), rows containing NaN dropped. -/
def csY (data : List ℚ) (look_back n_seq : ℕ) : List (List (Option ℚ)) :=
  ((npTranspose ((List.range (n_seq + 1)).map (fun i => shiftN (csCol0 data look_back) i))
        (csX data look_back).length).map (fun r => r.drop 1)).filter
    (fun r => r.all Option.isSome)

/-- `X = X[:len(Y),:]`. -/
def csXcut (data : List ℚ) (look_back n_seq : ℕ) : List (List (Option ℚ)) :=
  (csX data look_back).take (csY data look_back n_seq).length

/-- `create_supervised(data, look_back, n_seq, train_split, overlap)`:
returns `(trainX, trainY, testX, testY)`. -/
def create_supervised (data : List ℚ) (look_back n_seq : ℕ) (train_split : ℤ)
    (overlap : Bool := true) :
    List (List (Option ℚ)) × List (List (Option ℚ)) ×
      List (List (Option ℚ)) × List (List (Option ℚ)) :=
  let X := csXcut data look_back n_seq
  let Y := csY data look_back n_seq
  let trainX := pySliceTo X train_split
  let trainY := pySliceTo Y train_split
  if overlap then
    (trainX, trainY, pySliceFrom X (train_split - look_back - 1),
      pySliceFrom Y (train_split - look_back - 1))
  else
    (trainX, trainY, pySliceFrom X train_split, pySliceFrom Y train_split)

/-! ### `supervised_set` (lines 108-132)

Only the target column `df[var_name]` of the input frame is read, so the
embedding takes that column (`col`) and its name. -/

/-- `supervised_set(df, var_name, lag, lead, operational_lag)`: returns
`(lag_pred, lead_pred)` as named-column tables. The source's
`.shift(t).dropna()` on the assigned Series is a no-op (pandas setitem
realigns on the index, reinserting NaN at the dropped rows), so the
assigned column is the plain shift. The row trim is the Python slice
`[lag:-lead]`; `lead_pred` additionally drops the `var_name` column, and
`operational_lag > 0` drops the first `operational_lag` columns of
`lag_pred` (`iloc[:, operational_lag:]`). -/
def supervised_set (col : List ℚ) (var_name : String) (lag lead : ℕ)
    (operational_lag : ℕ := 0) :
    List (String × List (Option ℚ)) × List (String × List (Option ℚ)) :=
  let s := col.map some
  let lag_pred := (var_name, s) ::
    (List.range lag).map (fun t => (var_name ++ "_lag_" ++ toString (t + 1), shiftP s (t + 1)))
  let lead_pred := (var_name, s) ::
    (List.range lead).map (fun t => (var_name ++ "_lead_" ++ toString (t + 1), shiftN s (t + 1)))
  let lag_trim := lag_pred.map (fun p => (p.1, pySlice p.2 lag (-(lead : ℤ))))
  let lead_trim := (lead_pred.map (fun p => (p.1, pySlice p.2 lag (-(lead : ℤ))))).filter
    (fun p => p.1 ≠ var_name)
  let lag_fin := if 0 < operational_lag then lag_trim.drop operational_lag else lag_trim
  (lag_fin, lead_trim)

/-! ### `lagged_predictors_pd` (lines 134-164)

The PACF estimator (`statsmodels.tsa.stattools.pacf`) is an external
collaborator (spec §6); its output array is taken as the input `PACF`.
The `plot` flag and the diagnostic `print` perform no computation. -/

/-- `Lags = np.argwhere(abs(PACF) > thres) - 1` followed by
`Lags = Lags[Lags > starting_point]`, with
`starting_point = int(freq*24) - 1 + operational_lag` in `da_auction`
mode and `operational_lag` otherwise. -/
def selected_lags (PACF : List ℚ) (freq : ℚ) (operational_lag : ℕ) (thres : ℚ)
    (da_auction : Bool) : List ℤ :=
  let lags := ((List.range PACF.length).filter
      (fun i => thres < |PACF.getD i 0|)).map (fun (i : ℕ) => (i : ℤ) - 1)
  let starting_point : ℤ :=
    if da_auction then pyTrunc (freq * 24) - 1 + operational_lag else operational_lag
  lags.filter (fun l => starting_point < l)

/-- Modelled from the spec's words (§4.1, for comparison with
`selected_lags`): "Selects lag indices whose absolute PACF value exceeds
`threshold`" and "starting_point = ceil(24*freq) - 1 + operational_lag"
in `da_auction` mode, else `operational_lag`, keeping lags strictly
greater than the starting point. -/
def selected_lags_claim (PACF : List ℚ) (freq : ℚ) (operational_lag : ℕ) (thres : ℚ)
    (da_auction : Bool) : List ℤ :=
  let lags := ((List.range PACF.length).filter
      (fun i => thres < |PACF.getD i 0|)).map (fun (i : ℕ) => (i : ℤ))
  let starting_point : ℤ :=
    if da_auction then ⌈freq * 24⌉ - 1 + operational_lag else operational_lag
  lags.filter (fun l => starting_point < l)

/-- `df[name]` (empty column if absent; the source would raise there). -/
def dfGetD (df : List (String × List (Option ℚ))) (name : String) : List (Option ℚ) :=
  ((df.find? (fun p => p.1 = name)).map Prod.snd).getD []

/-- pandas `df[name] = col`: in-place setitem on the frame — replaces the
column if the name exists, otherwise appends it. -/
def dfSetItem (df : List (String × List (Option ℚ))) (name : String)
    (col : List (Option ℚ)) : List (String × List (Option ℚ)) :=
  if df.any (fun p => p.1 = name) then
    df.map (fun p => if p.1 = name then (name, col) else p)
  else df ++ [(name, col)]

/-- `lagged_predictors_pd(df, col_name, freq, d, operational_lag, thres,
plot, da_auction)`. Python mutates the caller's frame in place
(`df[temp_name] = df[col_name].shift(lag)`) and returns it together with
the list of new column names; the first component below is therefore the
state of the caller's dataframe after the call. -/
def lagged_predictors_pd (df : List (String × List (Option ℚ))) (col_name : String)
    (PACF : List ℚ) (freq : ℚ := 1) (operational_lag : ℕ := 0) (thres : ℚ := 1 / 20)
    (da_auction : Bool := true) :
    List (String × List (Option ℚ)) × List String :=
  let lags := selected_lags PACF freq operational_lag thres da_auction
  (lags.foldl
      (fun d l => dfSetItem d (col_name ++ "_" ++ toString l) (shiftI (dfGetD d col_name) l))
      df,
    lags.map (fun l => col_name ++ "_" ++ toString l))

/-! ### Forecast evaluation (lines 176-285): 2-D arrays throughout. -/

/-- `np.shape` of a rectangular 2-D array modelled as a list of rows. -/
def shape2 (m : List (List ℚ)) : ℕ × ℕ := (m.length, (m.headD []).length)

/-- Elementwise binary operation on two equal-shape 2-D arrays, flattened
(the argument order of `np.mean` over a 2-D result). -/
def ew2 (f : ℚ → ℚ → ℚ) (p a : List (List ℚ)) : List ℚ :=
  (List.zipWith (fun pr ar => List.zipWith f pr ar) p a).flatten

/-- Round to the nearest integer, ties to even, on `ℝ`. -/
noncomputable def roundHalfEvenR (x : ℝ) : ℤ :=
  let n := ⌊x⌋
  if x - n < 1 / 2 then n
  else if 1 / 2 < x - n then n + 1
  else if Even n then n else n + 1

/-- Python `round(x, d)` on `ℝ`. -/
noncomputable def pyRoundR (x : ℝ) (d : ℕ) : ℝ :=
  (roundHalfEvenR (x * 10 ^ d) : ℝ) / 10 ^ d

/-- `eval_point_pred(predictions, actual, digits)` (lines 180-190):
`assert predictions.shape == actual.shape, "Shape missmatch"`, then
`(MAPE, RMSE, MAE)`, optionally rounded. The failed assertion is the
`Except.error` branch. (Division is total on `ℚ`, so the unguarded
division by a zero actual — spec §7 — yields `0` here instead of an IEEE
infinity; no theorem below exercises that cell.) -/
noncomputable def eval_point_pred (predictions actual : List (List ℚ))
    (digits : Option ℕ := none) : Except String (ℚ × ℝ × ℚ) :=
  if shape2 predictions = shape2 actual then
    let mape := meanQ (ew2 (fun p a => |(p - a) / a|) predictions actual)
    let rmse : ℝ := Real.sqrt ((meanQ (ew2 (fun p a => (p - a) ^ 2) predictions actual) : ℚ) : ℝ)
    let mae := meanQ (ew2 (fun p a => |p - a|) predictions actual)
    match digits with
    | none => Except.ok (mape, rmse, mae)
    | some d => Except.ok (pyRound mape d, pyRoundR rmse d, pyRound mae d)
  else Except.error "Shape missmatch"

/-- numpy broadcast of a row/column index: a length-1 axis repeats its
single entry. -/
def bcastIdx (n i : ℕ) : ℕ := if n = 1 then 0 else i

/-- `predictions - actual` for 2-D arrays under numpy broadcasting;
`none` is the `ValueError` numpy raises for incompatible shapes. -/
def npSub2 (p a : List (List ℚ)) : Option (List (List ℚ)) :=
  let r1 := (shape2 p).1
  let c1 := (shape2 p).2
  let r2 := (shape2 a).1
  let c2 := (shape2 a).2
  if (r1 = r2 ∨ r1 = 1 ∨ r2 = 1) ∧ (c1 = c2 ∨ c1 = 1 ∨ c2 = 1) then
    some ((List.range (max r1 r2)).map (fun i => (List.range (max c1 c2)).map (fun j =>
      (p.getD (bcastIdx r1 i) []).getD (bcastIdx c1 j) 0 -
        (a.getD (bcastIdx r2 i) []).getD (bcastIdx c2 j) 0)))
  else none

/-- `brier_score(predictions, actual, digits)` (lines 247-252):
`np.mean(np.square(predictions - actual))`, optionally rounded. There is
no shape assertion; the subtraction broadcasts. -/
def brier_score (predictions actual : List (List ℚ)) (digits : Option ℕ := none) :
    Option ℚ :=
  (npSub2 predictions actual).map (fun diff =>
    let v := meanQ ((diff.map (fun r => r.map (fun x => x ^ 2))).flatten)
    match digits with
    | none => v
    | some d => pyRound v d)

/-- numpy elementwise binary operation on 2-D arrays under broadcasting
(the generalization of `npSub2` to an arbitrary scalar operation);
`none` is the `ValueError` numpy raises for incompatible shapes. A 1-D
operand of length `k` broadcasts like the `(1, k)` row matrix. -/
def npBcast2 (f : ℚ → ℚ → ℚ) (p a : List (List ℚ)) : Option (List (List ℚ)) :=
  let r1 := (shape2 p).1
  let c1 := (shape2 p).2
  let r2 := (shape2 a).1
  let c2 := (shape2 a).2
  if (r1 = r2 ∨ r1 = 1 ∨ r2 = 1) ∧ (c1 = c2 ∨ c1 = 1 ∨ c2 = 1) then
    some ((List.range (max r1 r2)).map (fun i => (List.range (max c1 c2)).map (fun j =>
      f ((p.getD (bcastIdx r1 i) []).getD (bcastIdx c1 j) 0)
        ((a.getD (bcastIdx r2 i) []).getD (bcastIdx c2 j) 0))))
  else none

/-- `pinball(prediction, target, quantiles)` (lines 192-196):
`np.maximum((np.tile(target, (1, num_quant)) - prediction) * quantiles,
(prediction - np.tile(target, (1, num_quant))) * (1 - quantiles))`.
`target` is the single column of the 2-D target (so the tile has one copy
of the column per quantile level); every operation broadcasts and there
is no shape assertion. -/
def pinball (prediction : List (List ℚ)) (target : List ℚ) (quantiles : List ℚ) :
    Option (List (List ℚ)) :=
  let num_quant := quantiles.length
  let tiled := target.map (fun t => List.replicate num_quant t)
  do
    let d1 ← npBcast2 (fun x y => x - y) tiled prediction
    let t1 ← npBcast2 (fun x y => x * y) d1 [quantiles]
    let d2 ← npBcast2 (fun x y => x - y) prediction tiled
    let t2 ← npBcast2 (fun x y => x * y) d2 [quantiles.map (fun q => 1 - q)]
    npBcast2 max t1 t2

/-- `np.trapz(y, x)` along the last axis of two equal-shape 2-D arrays:
row `i` integrates `y`'s row `i` against `x`'s row `i` by the trapezoidal
rule. -/
def npTrapz (y x : List (List ℚ)) : List ℚ :=
  (List.range y.length).map (fun i =>
    ((List.range ((y.getD i []).length - 1)).map (fun j =>
      ((x.getD i []).getD (j + 1) 0 - (x.getD i []).getD j 0)
        * ((y.getD i []).getD (j + 1) 0 + (y.getD i []).getD j 0) / 2)).sum)

/-- `CRPS(target, quant_pred, quantiles, digits)` (lines 198-208):
conditional probabilities `p = arange(n) / (n - 1)`, Heaviside matrix
`H = quant_pred > target` (the comparison broadcasts against the 2-D
target column; no shape assertion), then the mean over rows of
`np.trapz((H - p)**2, quant_pred)`, optionally rounded. (Division is
total on `ℚ`, so the unguarded `n - 1` denominator at `n = 1` yields `0`
instead of an IEEE infinity; no theorem below exercises it.) -/
def CRPS (target : List ℚ) (quant_pred : List (List ℚ)) (quantiles : List ℚ)
    (digits : Option ℕ := none) : Option ℚ :=
  let n := quantiles.length
  let p := (List.range n).map (fun (i : ℕ) => (i : ℚ) / ((n : ℚ) - 1))
  do
    let H ← npBcast2 (fun x t => if t < x then 1 else 0) quant_pred
      (target.map (fun t => [t]))
    let Hp ← npBcast2 (fun x y => x - y) H [p]
    let v := meanQ (npTrapz (Hp.map (fun r => r.map (fun z => z ^ 2))) quant_pred)
    match digits with
    | none => some v
    | some d => some (pyRound v d)

/-- `np.where(cond)[0][0]` folded with the `any(cond)` guard of
`pit_eval`: the first index of the row satisfying `p`, if any. -/
def np_where_first (p : ℚ → Bool) : List ℚ → Option ℕ
  | [] => none
  | x :: xs => if p x then some 0 else (np_where_first p xs).map (· + 1)

/-- One entry of `pit_eval`:
`y[np.where(row >= t)[0][0]] if any(row >= t) else 1`. -/
def pit_entry (t : ℚ) (row quantiles : List ℚ) : ℚ :=
  match np_where_first (fun x => t ≤ x) row with
  | some j => quantiles.getD j 0
  | none => 1

/-- `pit_eval(target, quant_pred, quantiles)` (lines 210-221), the
returned array (plotting ignored). -/
def pit_eval (target : List ℚ) (quant_pred : List (List ℚ)) (quantiles : List ℚ) :
    List ℚ :=
  (List.range target.length).map
    (fun i => pit_entry (target.getD i 0) (quant_pred.getD i []) quantiles)

/-- Euclidean norm of one column of a 2-D block (`np.linalg.norm(-, axis=0)`
applied column by column). -/
noncomputable def vecNorm (xs : List ℝ) : ℝ :=
  Real.sqrt ((xs.map (fun x => x ^ 2)).sum)

/-- Loop body of `energy_score` for block end `i` (block rows
`i-step .. i-1`): the mean over scenarios of the Euclidean distance to the
realized trajectory, minus the pairwise scenario-dispersion sum divided by
`2 * n_scen ^ 2`. `target` is the single column of the realized 2-D
trajectory (`target[i-step:i]` broadcasts against the scenario columns). -/
noncomputable def block_score (target : List ℝ) (pred_scenarios : List (List ℝ))
    (step i : ℕ) : ℝ :=
  let n_scen := (pred_scenarios.headD []).length
  let block := (List.range step).map (fun t => i - step + t)
  let dist := (((List.range n_scen).map (fun j =>
      vecNorm (block.map (fun t =>
        (pred_scenarios.getD t []).getD j 0 - target.getD t 0)))).sum) / n_scen
  let disp := (((List.range n_scen).map (fun j =>
      ((List.range n_scen).map (fun j2 =>
        vecNorm (block.map (fun t =>
          (pred_scenarios.getD t []).getD j 0 -
            (pred_scenarios.getD t []).getD j2 0)))).sum)).sum) / (2 * (n_scen : ℝ) ^ 2)
  dist - disp

/-- `energy_score(target, pred_scenarios, step)` (lines 272-285): the loop
runs over `i in range(step, len(target), step)` and the block scores are
averaged. -/
noncomputable def energy_score (target : List ℝ) (pred_scenarios : List (List ℝ))
    (step : ℕ) : ℝ :=
  rmean ((pyRangeStep step target.length step).map
    (fun i => block_score target pred_scenarios step i))

/-- Modelled from the spec's words (§4.2, for comparison with
`energy_score`): the average of the per-block scores over "each
non-overlapping block of `step` consecutive time points of the input",
i.e. every complete block, the final one included when the length is an
exact multiple of `step`. -/
noncomputable def energy_score_claim (target : List ℝ) (pred_scenarios : List (List ℝ))
    (step : ℕ) : ℝ :=
  rmean ((pyRangeStep step (target.length + 1) step).map
    (fun i => block_score target pred_scenarios step i))

/-! ### `VaR` / `CVaR` (lines 299-312). -/

/-- `np.quantile(data, q)` with the default linear interpolation:
position `q * (n - 1)` in the sorted sample, linearly interpolated between
the neighbouring order statistics. -/
def np_quantile (data : List ℚ) (q : ℚ) : ℚ :=
  let a := data.insertionSort (· ≤ ·)
  let n := a.length
  let h : ℚ := q * ((n : ℚ) - 1)
  let lo := (⌊h⌋).toNat
  a.getD lo 0 + (h - ⌊h⌋) * (a.getD (lo + 1) 0 - a.getD lo 0)

/-- Sample median (middle order statistic, or the mean of the two middle
order statistics for an even-length sample); the quantity claimed for
`VaR(data, quant=0.5)`. -/
def median (data : List ℚ) : ℚ :=
  let a := data.insertionSort (· ≤ ·)
  let n := a.length
  if n % 2 = 1 then a.getD (n / 2) 0
  else (a.getD (n / 2 - 1) 0 + a.getD (n / 2) 0) / 2

/-- `VaR(data, quant=.05, digits=3)`. -/
def VaR (data : List ℚ) (quant : ℚ := 1 / 20) (digits : Option ℕ := some 3) : ℚ :=
  match digits with
  | none => np_quantile data quant
  | some d => pyRound (np_quantile data quant) d

/-- `CVaR(data, quant=.05, digits=3)`: the mean of `data[data <= VaR]`,
optionally rounded. -/
def CVaR (data : List ℚ) (quant : ℚ := 1 / 20) (digits : Option ℕ := some 3) : ℚ :=
  let v := np_quantile data quant
  match digits with
  | none => meanQ (data.filter (fun x => x ≤ v))
  | some d => pyRound (meanQ (data.filter (fun x => x ≤ v))) d

/-! ## Helper lemmas -/

theorem length_pySliceTo {α : Type} (xs : List α) (i : ℤ) :
    (pySliceTo xs i).length = min (pyIdx xs.length i) xs.length := by
  simp [pySliceTo]

theorem length_pySliceFrom {α : Type} (xs : List α) (i : ℤ) :
    (pySliceFrom xs i).length = xs.length - pyIdx xs.length i := by
  simp [pySliceFrom]

theorem pySliceTo_subset {α : Type} (xs : List α) (i : ℤ) : pySliceTo xs i ⊆ xs :=
  List.take_subset _ _

theorem pySliceFrom_subset {α : Type} (xs : List α) (i : ℤ) : pySliceFrom xs i ⊆ xs :=
  List.drop_subset _ _

theorem mem_csX_isSome {data : List ℚ} {L : ℕ} {r : List (Option ℚ)}
    (h : r ∈ csX data L) : r.all Option.isSome = true :=
  (List.mem_filter.mp h).2

theorem mem_csY_isSome {data : List ℚ} {L H : ℕ} {r : List (Option ℚ)}
    (h : r ∈ csY data L H) : r.all Option.isSome = true :=
  (List.mem_filter.mp h).2

theorem mem_csXcut_isSome {data : List ℚ} {L H : ℕ} {r : List (Option ℚ)}
    (h : r ∈ csXcut data L H) : r.all Option.isSome = true :=
  mem_csX_isSome (List.take_subset _ _ h)

theorem csY_length_le (data : List ℚ) (L H : ℕ) :
    (csY data L H).length ≤ (csX data L).length := by
  refine le_trans (List.length_filter_le _ _) ?_
  simp [npTranspose]

theorem length_csXcut (data : List ℚ) (L H : ℕ) :
    (csXcut data L H).length = (csY data L H).length := by
  have h := csY_length_le data L H
  simp only [csXcut, List.length_take]
  omega

theorem all_rows_isSome_of_subset {l m : List (List (Option ℚ))} (h : l ⊆ m)
    (hm : ∀ r ∈ m, r.all Option.isSome = true) :
    l.all (fun r => r.all Option.isSome) = true :=
  List.all_eq_true.mpr (fun r hr => hm r (h hr))

/-! ## Claim C1 -/

/-- Claim C1: for every input series, non-negative `look_back` and horizon,
and split point, the four matrices returned by `create_supervised`
satisfy `len(trainX) = len(trainY)` and `len(testX) = len(testY)`, and no
returned row contains an undefined (NaN) cell. -/
theorem create_supervised_aligned_no_nan (data : List ℚ) (L H : ℕ) (ts : ℤ) (ov : Bool) :
    (create_supervised data L H ts ov).1.length = (create_supervised data L H ts ov).2.1.length
    ∧ (create_supervised data L H ts ov).2.2.1.length
        = (create_supervised data L H ts ov).2.2.2.length
    ∧ (create_supervised data L H ts ov).1.all (fun r => r.all Option.isSome) = true
    ∧ (create_supervised data L H ts ov).2.1.all (fun r => r.all Option.isSome) = true
    ∧ (create_supervised data L H ts ov).2.2.1.all (fun r => r.all Option.isSome) = true
    ∧ (create_supervised data L H ts ov).2.2.2.all (fun r => r.all Option.isSome) = true := by
  have hXY := length_csXcut data L H
  have hXall : ∀ r ∈ csXcut data L H, r.all Option.isSome = true :=
    fun r hr => mem_csXcut_isSome hr
  have hYall : ∀ r ∈ csY data L H, r.all Option.isSome = true :=
    fun r hr => mem_csY_isSome hr
  cases ov <;>
    exact ⟨by simp [create_supervised, length_pySliceTo, hXY],
      by simp [create_supervised, length_pySliceFrom, hXY],
      all_rows_isSome_of_subset (pySliceTo_subset _ _) hXall,
      all_rows_isSome_of_subset (pySliceTo_subset _ _) hYall,
      all_rows_isSome_of_subset (pySliceFrom_subset _ _) hXall,
      all_rows_isSome_of_subset (pySliceFrom_subset _ _) hYall⟩

/-! ## Claim C2 -/

/-- Claim C2, counterexample: with `overlap = True`, series `[1..6]`,
`look_back = 0`, `n_seq = 0` and `train_split = 10`, the training set has
6 ≥ `look_back + 1` rows, yet `testX = X[10-0-1:]` is empty, so its first
`look_back + 1` rows do not equal the last `look_back + 1` rows of
`trainX`: the claim fails when the split point exceeds the number of
aligned rows. -/
theorem create_supervised_overlap_counterexample :
    0 + 1 ≤ (create_supervised [1, 2, 3, 4, 5, 6] 0 0 10 true).1.length
    ∧ ¬ ((create_supervised [1, 2, 3, 4, 5, 6] 0 0 10 true).2.2.1.take (0 + 1)
        = (create_supervised [1, 2, 3, 4, 5, 6] 0 0 10 true).1.drop
            ((create_supervised [1, 2, 3, 4, 5, 6] 0 0 10 true).1.length - (0 + 1))) := by
  decide

/-- Claim C2 (amended): assuming additionally that the split point is
nonnegative and does not exceed the number of aligned rows (equivalently,
`trainX` has exactly `train_split` rows), and that the training set has at
least `look_back + 1` rows, the first `look_back + 1` rows of `testX`
(resp. `testY`) equal the last `look_back + 1` rows of `trainX` (resp.
`trainY`), because the overlap test set starts at row index
`train_split - look_back - 1`. -/
theorem create_supervised_overlap_prefix (data : List ℚ) (L H : ℕ) (ts : ℤ)
    (h0 : 0 ≤ ts)
    (h1 : (create_supervised data L H ts true).1.length = ts.toNat)
    (h2 : L + 1 ≤ (create_supervised data L H ts true).1.length) :
    (create_supervised data L H ts true).2.2.1.take (L + 1)
        = (create_supervised data L H ts true).1.drop
            ((create_supervised data L H ts true).1.length - (L + 1))
    ∧ (create_supervised data L H ts true).2.2.2.take (L + 1)
        = (create_supervised data L H ts true).2.1.drop
            ((create_supervised data L H ts true).2.1.length - (L + 1)) := by
  have hXY := length_csXcut data L H
  have e1 : (create_supervised data L H ts true).1 = pySliceTo (csXcut data L H) ts := rfl
  have e2 : (create_supervised data L H ts true).2.1 = pySliceTo (csY data L H) ts := rfl
  have e3 : (create_supervised data L H ts true).2.2.1
      = pySliceFrom (csXcut data L H) (ts - L - 1) := rfl
  have e4 : (create_supervised data L H ts true).2.2.2
      = pySliceFrom (csY data L H) (ts - L - 1) := rfl
  rw [e1] at h1 h2
  rw [e1, e2, e3, e4]
  rw [length_pySliceTo] at h1 h2
  have hpy : pyIdx (csXcut data L H).length ts = min ts.toNat (csXcut data L H).length := by
    simp [pyIdx, h0]
  rw [hpy] at h1 h2
  have htn : ts.toNat ≤ (csXcut data L H).length := by omega
  have hL : L + 1 ≤ ts.toNat := by omega
  have hole : 0 ≤ ts - L - 1 := by omega
  have htoN : (ts - L - 1).toNat = ts.toNat - (L + 1) := by omega
  have hpy2 : ∀ n : ℕ, (csXcut data L H).length ≤ n →
      pyIdx n (ts - L - 1) = ts.toNat - (L + 1) := by
    intro n hn
    simp only [pyIdx, hole, if_pos, htoN]
    omega
  constructor
  · rw [pySliceFrom, pySliceTo, hpy2 _ le_rfl, hpy, Nat.min_eq_left htn,
      List.length_take, Nat.min_eq_left htn, List.drop_take]
    congr 1
    omega
  · rw [pySliceFrom, pySliceTo, hpy2 _ (le_of_eq hXY), List.length_take]
    have htnY : ts.toNat ≤ (csY data L H).length := hXY ▸ htn
    have hpyY : pyIdx (csY data L H).length ts = ts.toNat := by
      simp only [pyIdx, h0, if_pos]
      omega
    rw [hpyY, Nat.min_eq_left htnY, List.drop_take]
    congr 1
    omega

/-- Claim C2 witness: the amended statement at the spec's own concrete
scenario (series `[1..6]`, `look_back = 1`, horizon 1, split 3). -/
theorem create_supervised_overlap_prefix_witness :
    (0 ≤ (3 : ℤ)
      ∧ (create_supervised [1, 2, 3, 4, 5, 6] 1 1 3 true).1.length = (3 : ℤ).toNat
      ∧ 1 + 1 ≤ (create_supervised [1, 2, 3, 4, 5, 6] 1 1 3 true).1.length)
    ∧ ((create_supervised [1, 2, 3, 4, 5, 6] 1 1 3 true).2.2.1.take (1 + 1)
        = (create_supervised [1, 2, 3, 4, 5, 6] 1 1 3 true).1.drop
            ((create_supervised [1, 2, 3, 4, 5, 6] 1 1 3 true).1.length - (1 + 1))
      ∧ (create_supervised [1, 2, 3, 4, 5, 6] 1 1 3 true).2.2.2.take (1 + 1)
        = (create_supervised [1, 2, 3, 4, 5, 6] 1 1 3 true).2.1.drop
            ((create_supervised [1, 2, 3, 4, 5, 6] 1 1 3 true).2.1.length - (1 + 1))) :=
  ⟨⟨by decide, by decide, by decide⟩,
    create_supervised_overlap_prefix [1, 2, 3, 4, 5, 6] 1 1 3
      (by decide) (by decide) (by decide)⟩

/-! ## Claim C3 -/

/-- Claim C3 (the code bug): `supervised_set` with `lag = 0` and
`lead = 0` trims rows with the Python slice `[0:-0]`, which is the empty
slice `[0:0]`; for every input column the returned `lag_table` is the
target column with zero rows (not "all its rows" as the claim states),
and the `lead_table` is empty. -/
theorem supervised_set_lag0_lead0 (col : List ℚ) (name : String) :
    supervised_set col name 0 0 0 = ([(name, [])], []) := by
  simp [supervised_set, pySlice, pyIdx]

/-! ## Claim C4 -/

/-- Claim C4, counterexample: `brier_score` succeeds on arrays of
mismatched shapes `(1,1)` and `(1,3)` — numpy silently broadcasts the
subtraction and the function returns `5/3`; there is no ShapeMismatch
assertion outside `eval_point_pred`. -/
theorem brier_score_no_shape_check :
    shape2 [[0]] ≠ shape2 [[0, 1, 2]] ∧ brier_score [[0]] [[0, 1, 2]] = some (5 / 3) := by
  refine ⟨by decide, ?_⟩
  norm_num [brier_score, npSub2, shape2, bcastIdx, meanQ, List.range_succ]

/-- Claim C4 (amended): only `eval_point_pred` carries the shape
assertion — it fails with the "Shape missmatch" condition exactly when the
prediction and actual shapes differ — while `pinball`, `CRPS` and
`brier_score` perform no shape check, and each can succeed on mismatched
(broadcast-compatible) prediction/actual shapes. -/
theorem eval_point_pred_shape_assert :
    (∀ (p a : List (List ℚ)) (d : Option ℕ),
        (∃ e, eval_point_pred p a d = Except.error e) ↔ shape2 p ≠ shape2 a)
    ∧ (∃ p a : List (List ℚ), shape2 p ≠ shape2 a ∧ (brier_score p a).isSome = true)
    ∧ (∃ (prediction : List (List ℚ)) (target quantiles : List ℚ),
        shape2 prediction ≠ shape2 (target.map (fun t => [t]))
          ∧ (pinball prediction target quantiles).isSome = true)
    ∧ (∃ (target : List ℚ) (quant_pred : List (List ℚ)) (quantiles : List ℚ),
        shape2 quant_pred ≠ shape2 (target.map (fun t => [t]))
          ∧ (CRPS target quant_pred quantiles).isSome = true) := by
  refine ⟨?_, ?_, ?_, ?_⟩
  · intro p a d
    constructor
    · rintro ⟨e, he⟩ heq
      unfold eval_point_pred at he
      rw [if_pos heq] at he
      cases d <;> simp at he
    · intro hne
      refine ⟨"Shape missmatch", ?_⟩
      unfold eval_point_pred
      rw [if_neg hne]
  · exact ⟨[[0]], [[0, 1, 2]], by decide, by decide⟩
  · exact ⟨[[0, 1]], [0, 1], [0, 1], by decide, by decide⟩
  · exact ⟨[0], [[0, 1], [2, 3]], [0, 1], by decide, by decide⟩

/-! ## Claim C5 -/

theorem np_where_first_eq_none_iff (p : ℚ → Bool) (l : List ℚ) :
    np_where_first p l = none ↔ ∀ x ∈ l, p x = false := by
  induction l with
  | nil => simp [np_where_first]
  | cons x xs ih => cases hp : p x <;> simp [np_where_first, hp, ih]

theorem np_where_first_eq_some_spec (p : ℚ → Bool) (l : List ℚ) (j : ℕ)
    (h : np_where_first p l = some j) :
    j < l.length ∧ p (l.getD j 0) = true ∧ ∀ k, k < j → p (l.getD k 0) = false := by
  induction l generalizing j with
  | nil => simp [np_where_first] at h
  | cons x xs ih =>
    rw [np_where_first] at h
    by_cases hp : p x = true
    · rw [if_pos hp] at h
      obtain rfl : 0 = j := Option.some.inj h
      exact ⟨by simp, by simpa using hp, by omega⟩
    · rw [if_neg hp] at h
      rw [Option.map_eq_some'] at h
      obtain ⟨j0, hj0, rfl⟩ := h
      obtain ⟨h1, h2, h3⟩ := ih j0 hj0
      refine ⟨by simpa using h1, by simpa using h2, ?_⟩
      intro k hk
      cases k with
      | zero => simpa using hp
      | succ k2 => simpa using h3 k2 (by omega)

theorem pit_entry_of_some (t : ℚ) (row quantiles : List ℚ) (k : ℕ)
    (hw : np_where_first (fun x => decide (t ≤ x)) row = some k) :
    pit_entry t row quantiles = quantiles.getD k 0 := by
  unfold pit_entry
  rw [hw]

theorem pit_entry_of_none (t : ℚ) (row quantiles : List ℚ)
    (hw : np_where_first (fun x => decide (t ≤ x)) row = none) :
    pit_entry t row quantiles = 1 := by
  unfold pit_entry
  rw [hw]

theorem pit_eval_getD (target : List ℚ) (qp : List (List ℚ)) (q : List ℚ) (i : ℕ)
    (h : i < target.length) :
    (pit_eval target qp q).getD i 0 = pit_entry (target.getD i 0) (qp.getD i []) q := by
  unfold pit_eval
  rw [List.getD_eq_getElem _ _ (by simpa using h)]
  simp

/-- Claim C5: under the spec's data model for quantile predictions
(§3: quantile levels strictly increasing, probabilities in `(0,1)`, one
level per prediction column, one prediction row per observation),
`pit_eval` returns for each observation the smallest quantile level whose
prediction reaches the target — the level of the first reaching column,
which minimizes the level among all reaching columns — it returns `1`
exactly when no prediction in the row reaches the target, and whenever
the last column reaches the target the `1.0` fallback branch
(`np_where_first … = none`) is not taken. -/
theorem pit_eval_correct (target : List ℚ) (qp : List (List ℚ)) (quantiles : List ℚ)
    (hsort : quantiles.Sorted (· < ·))
    (hlt1 : ∀ q ∈ quantiles, q < 1)
    (hq0 : quantiles ≠ [])
    (hlen : qp.length = target.length)
    (hrows : ∀ r ∈ qp, r.length = quantiles.length) :
    (∀ i, i < target.length →
      (((pit_eval target qp quantiles).getD i 0 = 1)
          ↔ ∀ x ∈ qp.getD i [], ¬ (target.getD i 0 ≤ x))
      ∧ (∀ j, j < (qp.getD i []).length → target.getD i 0 ≤ (qp.getD i []).getD j 0 →
          ∃ k, k ≤ j ∧ target.getD i 0 ≤ (qp.getD i []).getD k 0
            ∧ (pit_eval target qp quantiles).getD i 0 = quantiles.getD k 0
            ∧ (pit_eval target qp quantiles).getD i 0 ≤ quantiles.getD j 0))
    ∧ ((∀ i, i < target.length →
          target.getD i 0 ≤ (qp.getD i []).getD ((qp.getD i []).length - 1) 0) →
        ∀ i, i < target.length →
          np_where_first (fun x => target.getD i 0 ≤ x) (qp.getD i []) ≠ none) := by
  have hrow_len : ∀ i, i < target.length → (qp.getD i []).length = quantiles.length := by
    intro i hi
    apply hrows
    rw [List.getD_eq_getElem _ _ (by omega)]
    exact List.getElem_mem _
  constructor
  · intro i hi
    rw [pit_eval_getD _ _ _ _ hi]
    constructor
    · cases hw : np_where_first (fun x => decide (target.getD i 0 ≤ x)) (qp.getD i []) with
      | none =>
        rw [pit_entry_of_none _ _ _ hw]
        constructor
        · intro _ x hx
          simpa using (np_where_first_eq_none_iff _ _).mp hw x hx
        · intro _
          rfl
      | some j =>
        rw [pit_entry_of_some _ _ _ _ hw]
        obtain ⟨hjlt, hpj, _⟩ := np_where_first_eq_some_spec _ _ _ hw
        have hjq : j < quantiles.length := by rw [← hrow_len i hi]; exact hjlt
        have hqj_mem : quantiles.getD j 0 ∈ quantiles := by
          rw [List.getD_eq_getElem _ _ hjq]
          exact List.getElem_mem _
        constructor
        · intro h1
          exact absurd h1 (ne_of_lt (hlt1 _ hqj_mem))
        · intro hall
          exfalso
          have hx : (qp.getD i []).getD j 0 ∈ qp.getD i [] := by
            rw [List.getD_eq_getElem _ _ hjlt]
            exact List.getElem_mem _
          exact hall _ hx (by simpa using hpj)
    · intro j hj htj
      cases hw : np_where_first (fun x => decide (target.getD i 0 ≤ x)) (qp.getD i []) with
      | none =>
        exfalso
        have hx : (qp.getD i []).getD j 0 ∈ qp.getD i [] := by
          rw [List.getD_eq_getElem _ _ hj]
          exact List.getElem_mem _
        have hfalse := (np_where_first_eq_none_iff _ _).mp hw _ hx
        rw [decide_eq_false_iff_not] at hfalse
        exact hfalse htj
      | some k =>
        rw [pit_entry_of_some _ _ _ _ hw]
        obtain ⟨hklt, hpk, hmin⟩ := np_where_first_eq_some_spec _ _ _ hw
        have hkj : k ≤ j := by
          by_contra hc
          push_neg at hc
          have hfalse := hmin j hc
          rw [decide_eq_false_iff_not] at hfalse
          exact hfalse htj
        refine ⟨k, hkj, by simpa using hpk, rfl, ?_⟩
        rcases eq_or_lt_of_le hkj with rfl | hklj
        · exact le_refl _
        · have hjq : j < quantiles.length := by rw [← hrow_len i hi]; exact hj
          have hkq : k < quantiles.length := lt_trans hklj hjq
          have hgl := List.pairwise_iff_get.mp hsort ⟨k, hkq⟩ ⟨j, hjq⟩ (by simpa using hklj)
          rw [List.getD_eq_getElem _ _ hkq, List.getD_eq_getElem _ _ hjq]
          exact le_of_lt (by simpa using hgl)
  · intro hlast i hi hnone
    have hrl : (qp.getD i []).length = quantiles.length := hrow_len i hi
    have hne : (qp.getD i []).length ≠ 0 := by
      rw [hrl]
      simpa using hq0
    have hbound : (qp.getD i []).length - 1 < (qp.getD i []).length := by omega
    have hx : (qp.getD i []).getD ((qp.getD i []).length - 1) 0 ∈ qp.getD i [] := by
      rw [List.getD_eq_getElem _ _ hbound]
      exact List.getElem_mem _
    have hfalse := (np_where_first_eq_none_iff _ _).mp hnone _ hx
    rw [decide_eq_false_iff_not] at hfalse
    exact hfalse (hlast i hi)

/-- Claim C5 witness: the data-model hypotheses and the conclusion at
`target = [1, 2]`, `quant_pred = [[0, 1], [1, 3]]`,
`quantiles = [1/4, 3/4]`. -/
theorem pit_eval_correct_witness :
    (([(1 : ℚ) / 4, 3 / 4].Sorted (· < ·))
      ∧ (∀ q ∈ [(1 : ℚ) / 4, 3 / 4], q < 1)
      ∧ [(1 : ℚ) / 4, 3 / 4] ≠ []
      ∧ [[(0 : ℚ), 1], [1, 3]].length = [(1 : ℚ), 2].length
      ∧ (∀ r ∈ [[(0 : ℚ), 1], [1, 3]], r.length = [(1 : ℚ) / 4, 3 / 4].length))
    ∧ ((∀ i, i < [(1 : ℚ), 2].length →
        (((pit_eval [1, 2] [[0, 1], [1, 3]] [1 / 4, 3 / 4]).getD i 0 = 1)
            ↔ ∀ x ∈ [[(0 : ℚ), 1], [1, 3]].getD i [], ¬ ([(1 : ℚ), 2].getD i 0 ≤ x))
        ∧ (∀ j, j < ([[(0 : ℚ), 1], [1, 3]].getD i []).length →
            [(1 : ℚ), 2].getD i 0 ≤ ([[(0 : ℚ), 1], [1, 3]].getD i []).getD j 0 →
            ∃ k, k ≤ j
              ∧ [(1 : ℚ), 2].getD i 0 ≤ ([[(0 : ℚ), 1], [1, 3]].getD i []).getD k 0
              ∧ (pit_eval [1, 2] [[0, 1], [1, 3]] [1 / 4, 3 / 4]).getD i 0
                  = [(1 : ℚ) / 4, 3 / 4].getD k 0
              ∧ (pit_eval [1, 2] [[0, 1], [1, 3]] [1 / 4, 3 / 4]).getD i 0
                  ≤ [(1 : ℚ) / 4, 3 / 4].getD j 0))
      ∧ ((∀ i, i < [(1 : ℚ), 2].length →
            [(1 : ℚ), 2].getD i 0
              ≤ ([[(0 : ℚ), 1], [1, 3]].getD i []).getD
                  (([[(0 : ℚ), 1], [1, 3]].getD i []).length - 1) 0) →
          ∀ i, i < [(1 : ℚ), 2].length →
            np_where_first (fun x => [(1 : ℚ), 2].getD i 0 ≤ x)
                ([[(0 : ℚ), 1], [1, 3]].getD i []) ≠ none)) :=
  ⟨⟨by norm_num [List.sorted_cons], by norm_num, by simp, by decide, by decide⟩,
    pit_eval_correct [1, 2] [[0, 1], [1, 3]] [1 / 4, 3 / 4]
      (by norm_num [List.sorted_cons]) (by norm_num) (by simp) (by decide) (by decide)⟩

/-! ## Claim C7 -/

theorem np_quantile_eval_half : np_quantile [0, 1 / 400] (1 / 2) = 1 / 800 := by
  norm_num [np_quantile, List.insertionSort, List.orderedInsert]

theorem median_eval : median [0, 1 / 400] = 1 / 800 := by
  norm_num [median, List.insertionSort, List.orderedInsert]

theorem VaR_default_eval : VaR [0, 1 / 400] (1 / 2) = 1 / 1000 := by
  rw [show VaR [0, 1 / 400] (1 / 2) = pyRound (np_quantile [0, 1 / 400] (1 / 2)) 3 from rfl,
    np_quantile_eval_half]
  norm_num [pyRound, roundHalfEven]

theorem VaR_none_eval : VaR [0, 1 / 400] (1 / 2) none = 1 / 800 := by
  rw [show VaR [0, 1 / 400] (1 / 2) none = np_quantile [0, 1 / 400] (1 / 2) from rfl,
    np_quantile_eval_half]

/-- Claim C7, counterexample: with the source's default `digits = 3`,
`VaR([0, 1/400], quant=0.5)` returns the rounded value `1/1000`, not the
median `1/800`. -/
theorem VaR_median_counterexample :
    VaR [0, 1 / 400] (1 / 2) ≠ median [0, 1 / 400] := by
  rw [VaR_default_eval, median_eval]
  norm_num

theorem sorted_le_getD_last (a : List ℚ) (hs : a.Sorted (· ≤ ·)) (x : ℚ) (hx : x ∈ a) :
    x ≤ a.getD (a.length - 1) 0 := by
  obtain ⟨i, hi, rfl⟩ := List.mem_iff_getElem.mp hx
  have hlast : a.length - 1 < a.length := by omega
  rw [List.getD_eq_getElem _ _ hlast]
  rcases eq_or_lt_of_le (by omega : i ≤ a.length - 1) with heq | hlt
  · subst heq
    exact le_refl _
  · have := List.pairwise_iff_get.mp hs ⟨i, hi⟩ ⟨a.length - 1, hlast⟩ (by simpa using hlt)
    simpa using this

theorem np_quantile_getD (data : List ℚ) (q : ℚ) :
    np_quantile data q
      = (data.insertionSort (· ≤ ·)).getD
            (⌊q * (((data.insertionSort (· ≤ ·)).length : ℚ) - 1)⌋).toNat 0
        + (q * (((data.insertionSort (· ≤ ·)).length : ℚ) - 1)
            - ⌊q * (((data.insertionSort (· ≤ ·)).length : ℚ) - 1)⌋)
          * ((data.insertionSort (· ≤ ·)).getD
                ((⌊q * (((data.insertionSort (· ≤ ·)).length : ℚ) - 1)⌋).toNat + 1) 0
            - (data.insertionSort (· ≤ ·)).getD
                (⌊q * (((data.insertionSort (· ≤ ·)).length : ℚ) - 1)⌋).toNat 0) := rfl

theorem np_quantile_half_eq_median (data : List ℚ) (hne : data ≠ []) :
    np_quantile data (1 / 2) = median data := by
  have hn : (data.insertionSort (· ≤ ·)).length ≠ 0 := by
    rw [List.length_insertionSort]
    simpa using hne
  rw [np_quantile_getD]
  unfold median
  set a := data.insertionSort (· ≤ ·) with ha
  rcases Nat.even_or_odd a.length with ⟨m, hm⟩ | ⟨m, hm⟩
  · have hm1 : 1 ≤ m := by omega
    have hv : (1 / 2 : ℚ) * ((a.length : ℚ) - 1) = 1 / 2 + ((m : ℤ) - 1 : ℤ) := by
      rw [hm]
      push_cast
      ring
    have hfl : ⌊(1 / 2 : ℚ) * ((a.length : ℚ) - 1)⌋ = (m : ℤ) - 1 := by
      rw [hv, Int.floor_add_int]
      norm_num
    rw [hfl, hv]
    have hlo : ((m : ℤ) - 1).toNat = m - 1 := by omega
    rw [hlo]
    rw [if_neg (by omega : ¬ a.length % 2 = 1)]
    have hdiv : a.length / 2 = m := by omega
    rw [hdiv]
    have hm1n : m - 1 + 1 = m := by omega
    rw [hm1n]
    push_cast
    ring
  · have hv : (1 / 2 : ℚ) * ((a.length : ℚ) - 1) = ((m : ℤ) : ℚ) := by
      rw [hm]
      push_cast
      ring
    have hfl : ⌊(1 / 2 : ℚ) * ((a.length : ℚ) - 1)⌋ = (m : ℤ) := by
      rw [hv, Int.floor_intCast]
    rw [hfl, hv]
    have hlo : ((m : ℤ)).toNat = m := by omega
    rw [hlo]
    rw [if_pos (by omega : a.length % 2 = 1)]
    have hdiv : a.length / 2 = m := by omega
    rw [hdiv]
    push_cast
    ring

theorem np_quantile_one_eq_max (data : List ℚ) (hne : data ≠ []) :
    np_quantile data 1
      = (data.insertionSort (· ≤ ·)).getD ((data.insertionSort (· ≤ ·)).length - 1) 0 := by
  have hn : (data.insertionSort (· ≤ ·)).length ≠ 0 := by
    rw [List.length_insertionSort]
    simpa using hne
  rw [np_quantile_getD]
  set a := data.insertionSort (· ≤ ·) with ha
  have hv : (1 : ℚ) * ((a.length : ℚ) - 1) = (((a.length : ℤ) - 1 : ℤ) : ℚ) := by
    push_cast
    ring
  have hfl : ⌊(1 : ℚ) * ((a.length : ℚ) - 1)⌋ = (a.length : ℤ) - 1 := by
    rw [hv, Int.floor_intCast]
  rw [hfl, hv]
  have hlo : ((a.length : ℤ) - 1).toNat = a.length - 1 := by omega
  rw [hlo]
  ring

/-- Claim C7 (amended): for every nonempty sample and with `digits=None`
(the default `digits=3` rounds the result, see the counterexample),
`VaR(data, 0.5)` is the sample median and `CVaR(data, 1.0)` is the sample
mean. -/
theorem VaR_CVaR_unrounded (data : List ℚ) (hne : data ≠ []) :
    VaR data (1 / 2) none = median data ∧ CVaR data 1 none = meanQ data := by
  constructor
  · exact np_quantile_half_eq_median data hne
  · show meanQ (data.filter (fun x => x ≤ np_quantile data 1)) = meanQ data
    congr 1
    apply List.filter_eq_self.mpr
    intro x hx
    rw [np_quantile_one_eq_max data hne]
    have hs : (data.insertionSort (· ≤ ·)).Sorted (· ≤ ·) :=
      List.sorted_insertionSort _ data
    have hmem : x ∈ data.insertionSort (· ≤ ·) :=
      (List.perm_insertionSort _ data).mem_iff.mpr hx
    simpa using sorted_le_getD_last _ hs x hmem

/-- Claim C7 witness: the amended statement at `data = [1, 2, 3]`. -/
theorem VaR_CVaR_unrounded_witness :
    ([(1 : ℚ), 2, 3] ≠ [])
    ∧ (VaR [1, 2, 3] (1 / 2) none = median [1, 2, 3]
      ∧ CVaR [1, 2, 3] 1 none = meanQ [1, 2, 3]) :=
  ⟨by decide, VaR_CVaR_unrounded [1, 2, 3] (by decide)⟩

/-! ## Claim C10 -/

/-- Claim C10: `VaR` and `CVaR` called without an explicit `digits`
argument use the default `digits = 3` and return the empirical quantile
(resp. tail mean) rounded to 3 decimal places; the unrounded value is
obtained only with `digits = None`, and the two calls can differ. -/
theorem VaR_CVaR_default_digits :
    (∀ (data : List ℚ) (quant : ℚ),
        VaR data quant = pyRound (np_quantile data quant) 3
          ∧ VaR data quant none = np_quantile data quant)
    ∧ (∀ (data : List ℚ) (quant : ℚ),
        CVaR data quant
            = pyRound (meanQ (data.filter (fun x => x ≤ np_quantile data quant))) 3
          ∧ CVaR data quant none
            = meanQ (data.filter (fun x => x ≤ np_quantile data quant)))
    ∧ VaR [0, 1 / 400] (1 / 2) ≠ VaR [0, 1 / 400] (1 / 2) none :=
  ⟨fun _ _ => ⟨rfl, rfl⟩, fun _ _ => ⟨rfl, rfl⟩, by
    rw [VaR_default_eval, VaR_none_eval]
    norm_num⟩

/-! ## Claims C6 and C9: `lagged_predictors_pd` -/

theorem col_name_ne_lag_name (c t : String) : c ≠ c ++ "_" ++ t := by
  intro h
  have hlen := congrArg String.length h
  rw [String.length_append, String.length_append] at hlen
  have h1 : String.length "_" = 1 := rfl
  omega

theorem dfSetItem_append (df : List (String × List (Option ℚ))) (name : String)
    (col : List (Option ℚ)) (h : name ∉ df.map Prod.fst) :
    dfSetItem df name col = df ++ [(name, col)] := by
  unfold dfSetItem
  rw [if_neg]
  intro hc
  rw [List.any_eq_true] at hc
  obtain ⟨p, hp, hpe⟩ := hc
  exact h (List.mem_map.mpr ⟨p, hp, by simpa using hpe⟩)

theorem dfGetD_append_singleton (df : List (String × List (Option ℚ))) (nm c : String)
    (col : List (Option ℚ)) (h : c ≠ nm) :
    dfGetD (df ++ [(nm, col)]) c = dfGetD df c := by
  induction df with
  | nil =>
    simp only [List.nil_append, dfGetD]
    rw [List.find?_cons_of_neg _ (by simpa using Ne.symm h), List.find?_nil]
  | cons p rest ih =>
    by_cases hp : p.1 = c
    · unfold dfGetD
      rw [List.cons_append, List.find?_cons_of_pos _ (by simpa using hp),
        List.find?_cons_of_pos _ (by simpa using hp)]
    · unfold dfGetD at ih ⊢
      rw [List.cons_append, List.find?_cons_of_neg _ (by simpa using hp),
        List.find?_cons_of_neg _ (by simpa using hp)]
      exact ih

theorem foldl_dfSetItem_append (c : String) (ls : List ℤ)
    (df : List (String × List (Option ℚ)))
    (hfresh : ∀ l ∈ ls, (c ++ "_" ++ toString l) ∉ df.map Prod.fst)
    (hnodup : (ls.map (fun l => c ++ "_" ++ toString l)).Nodup) :
    ls.foldl (fun d l => dfSetItem d (c ++ "_" ++ toString l) (shiftI (dfGetD d c) l)) df
      = df ++ ls.map (fun l => (c ++ "_" ++ toString l, shiftI (dfGetD df c) l)) := by
  induction ls generalizing df with
  | nil => simp
  | cons l rest ih =>
    rw [List.foldl_cons, dfSetItem_append _ _ _ (hfresh l (by simp))]
    have hget : dfGetD (df ++ [(c ++ "_" ++ toString l, shiftI (dfGetD df c) l)]) c
        = dfGetD df c :=
      dfGetD_append_singleton _ _ _ _ (col_name_ne_lag_name c (toString l))
    have hfresh2 : ∀ l2 ∈ rest, (c ++ "_" ++ toString l2)
        ∉ (df ++ [(c ++ "_" ++ toString l, shiftI (dfGetD df c) l)]).map Prod.fst := by
      intro l2 h2
      rw [List.map_append, List.mem_append]
      rintro (h | h)
      · exact hfresh l2 (List.mem_cons_of_mem _ h2) h
      · simp only [List.map_cons, List.map_nil, List.mem_singleton] at h
        have hmem : (c ++ "_" ++ toString l)
            ∈ rest.map (fun l2 => c ++ "_" ++ toString l2) :=
          List.mem_map.mpr ⟨l2, h2, h⟩
        have hnd := hnodup
        rw [List.map_cons, List.nodup_cons] at hnd
        exact hnd.1 hmem
    have hnodup2 : (rest.map (fun l2 => c ++ "_" ++ toString l2)).Nodup := by
      have hnd := hnodup
      rw [List.map_cons, List.nodup_cons] at hnd
      exact hnd.2
    rw [ih _ hfresh2 hnodup2, hget]
    simp [List.append_assoc]

/-- Claim C6, counterexample: the code computes
`np.argwhere(abs(PACF) > thres) - 1`, so with `PACF = [1, 0, 2, 0]`,
`thres = 0`, `operational_lag = 0` and `da_auction = False` it creates the
lag `1` (because `|PACF[2]| > 0`), while the claim's rule ("lag indices
whose absolute PACF value exceeds the threshold") selects lag `2`. -/
theorem selected_lags_counterexample :
    selected_lags [1, 0, 2, 0] 1 0 0 false ≠ selected_lags_claim [1, 0, 2, 0] 1 0 0 false
    ∧ selected_lags [1, 0, 2, 0] 1 0 0 false = [1]
    ∧ selected_lags_claim [1, 0, 2, 0] 1 0 0 false = [2] := by
  refine ⟨?_, ?_, ?_⟩ <;> decide

theorem mem_selected_lags_iff (PACF : List ℚ) (freq : ℚ) (op : ℕ) (thres : ℚ)
    (da : Bool) (l : ℤ) :
    l ∈ selected_lags PACF freq op thres da ↔
      ((∃ i : ℕ, i < PACF.length ∧ thres < |PACF.getD i 0| ∧ l = (i : ℤ) - 1)
        ∧ (if da then pyTrunc (freq * 24) - 1 + (op : ℤ) else (op : ℤ)) < l) := by
  unfold selected_lags
  rw [List.mem_filter, List.mem_map]
  simp only [List.mem_filter, List.mem_range, decide_eq_true_eq]
  constructor
  · rintro ⟨⟨i, ⟨hi, hthres⟩, hl⟩, hsp⟩
    exact ⟨⟨i, hi, hthres, hl.symm⟩, hsp⟩
  · rintro ⟨⟨i, hi, hthres, hl⟩, hsp⟩
    exact ⟨⟨i, ⟨hi, hthres⟩, hl.symm⟩, hsp⟩

/-- Claim C6 (amended): `lagged_predictors_pd` selects the indices `i`
with `|PACF[i]| > threshold` and then subtracts one (`argwhere(...) - 1`),
keeps only the resulting lags strictly greater than the starting point —
`int(freq*24) - 1 + operational_lag` (Python `int` truncation, not `ceil`)
in `da_auction` mode, `operational_lag` otherwise — and, provided the new
column names are fresh and pairwise distinct, appends for each surviving
lag `l` a column `{col}_{l}` equal to the target shifted by `l`. -/
theorem lagged_predictors_pd_amended (df : List (String × List (Option ℚ)))
    (c : String) (PACF : List ℚ) (freq : ℚ) (op : ℕ) (thres : ℚ) (da : Bool)
    (hfresh : ∀ n ∈ (selected_lags PACF freq op thres da).map
        (fun l => c ++ "_" ++ toString l), n ∉ df.map Prod.fst)
    (hnodup : ((selected_lags PACF freq op thres da).map
        (fun l => c ++ "_" ++ toString l)).Nodup) :
    (∀ l : ℤ, l ∈ selected_lags PACF freq op thres da ↔
        ((∃ i : ℕ, i < PACF.length ∧ thres < |PACF.getD i 0| ∧ l = (i : ℤ) - 1)
          ∧ (if da then pyTrunc (freq * 24) - 1 + (op : ℤ) else (op : ℤ)) < l))
    ∧ (lagged_predictors_pd df c PACF freq op thres da).2
        = (selected_lags PACF freq op thres da).map (fun l => c ++ "_" ++ toString l)
    ∧ (lagged_predictors_pd df c PACF freq op thres da).1
        = df ++ (selected_lags PACF freq op thres da).map
            (fun l => (c ++ "_" ++ toString l, shiftI (dfGetD df c) l)) := by
  refine ⟨mem_selected_lags_iff PACF freq op thres da, rfl, ?_⟩
  exact foldl_dfSetItem_append c _ df
    (fun l hl => hfresh _ (List.mem_map_of_mem _ hl)) hnodup

/-- Claim C6 witness: the amended statement at
`df = [("y", [2, 4])]`, `PACF = [1, 0, 2]`, `freq = 1`,
`operational_lag = 0`, `thres = 0`, `da_auction = False` (selected lag
list `[1]`). -/
theorem lagged_predictors_pd_amended_witness :
    (lagged_predictors_pd [("y", [some (2 : ℚ), some 4])] "y" [1, 0, 2] 1 0 0 false).1
      = [("y", [some (2 : ℚ), some 4])]
        ++ (selected_lags [1, 0, 2] 1 0 0 false).map
            (fun l => ("y" ++ "_" ++ toString l,
              shiftI (dfGetD [("y", [some (2 : ℚ), some 4])] "y") l)) :=
  (lagged_predictors_pd_amended [("y", [some (2 : ℚ), some 4])] "y" [1, 0, 2] 1 0 0 false
    (by decide) (by decide)).2.2

/-- Claim C9, counterexample: `lagged_predictors_pd` mutates the caller's
dataframe — `df[temp_name] = df[col_name].shift(lag)` is an in-place
setitem on the argument — so after a call that selects lag `1` the
caller's frame differs from its initial state. -/
theorem lagged_predictors_pd_mutation_counterexample :
    (lagged_predictors_pd [("x", [some (1 : ℚ), some 2, some 3])] "x" [1, 0, 2] 1 0 0
        false).1
      ≠ [("x", [some (1 : ℚ), some 2, some 3])] := by
  decide

/-- Claim C9 (amended): `lagged_predictors_pd` appends one column per
selected lag to the caller's dataframe in place; the caller's frame is
left unmodified if and only if no lag survives the selection (given fresh,
pairwise-distinct new column names). -/
theorem lagged_predictors_pd_mutates_iff (df : List (String × List (Option ℚ)))
    (c : String) (PACF : List ℚ) (freq : ℚ) (op : ℕ) (thres : ℚ) (da : Bool)
    (hfresh : ∀ n ∈ (selected_lags PACF freq op thres da).map
        (fun l => c ++ "_" ++ toString l), n ∉ df.map Prod.fst)
    (hnodup : ((selected_lags PACF freq op thres da).map
        (fun l => c ++ "_" ++ toString l)).Nodup) :
    (lagged_predictors_pd df c PACF freq op thres da).1 = df
      ↔ selected_lags PACF freq op thres da = [] := by
  have hfold := foldl_dfSetItem_append c (selected_lags PACF freq op thres da) df
    (fun l hl => hfresh _ (List.mem_map_of_mem _ hl)) hnodup
  rw [show (lagged_predictors_pd df c PACF freq op thres da).1
      = df ++ (selected_lags PACF freq op thres da).map
          (fun l => (c ++ "_" ++ toString l, shiftI (dfGetD df c) l)) from hfold]
  rw [List.append_right_eq_self, List.map_eq_nil_iff]

/-- Claim C9 witness: the amended statement at a concrete frame where the
selection keeps lag `1`, so both sides of the equivalence are false. -/
theorem lagged_predictors_pd_mutates_iff_witness :
    (lagged_predictors_pd [("z", [some (7 : ℚ), some 8])] "z" [1, 0, 2] 1 0 0 false).1
        = [("z", [some (7 : ℚ), some 8])]
      ↔ selected_lags [1, 0, 2] 1 0 0 false = [] :=
  lagged_predictors_pd_mutates_iff [("z", [some (7 : ℚ), some 8])] "z" [1, 0, 2] 1 0 0
    false (by decide) (by decide)

/-! ## Claim C8 -/

theorem vecNorm_singleton (x : ℝ) : vecNorm [x] = |x| := by
  simp only [vecNorm, List.map_cons, List.map_nil, List.sum_cons, List.sum_nil, add_zero]
  exact Real.sqrt_sq_eq_abs x

/-- Claim C8, counterexample: the loop `for i in range(step, len(target),
step)` never processes the final block when the target length is an exact
multiple of `step`: with `target = [0, 10]`, one scenario column
`[[0], [0]]` and `step = 1`, the code averages only the block `[0, 1)`
(score `0`), while averaging over each non-overlapping block of the input
(as the claim states, modelled by `energy_score_claim`) also includes
block `[1, 2)` and yields `5`. -/
theorem energy_score_last_block_counterexample :
    energy_score [0, 10] [[0], [0]] 1 = 0
    ∧ energy_score_claim [0, 10] [[0], [0]] 1 = 5 := by
  constructor
  · norm_num [energy_score, block_score, pyRangeStep, rmean, vecNorm_singleton,
      List.range_succ]
  · norm_num [energy_score_claim, block_score, pyRangeStep, rmean, vecNorm_singleton,
      List.range_succ]

/-- Claim C8 (amended): for a positive `step`, `energy_score` averages the
per-block scores (mean Euclidean-norm distance of the scenario
trajectories to the realized trajectory minus the pairwise
scenario-dispersion sum over `2 * n_scen ^ 2`) over the blocks ending at
`step, 2*step, …` strictly below `len(target)`: there are
`(len(target) - 1) / step` of them, so the final complete block is
excluded whenever the length is an exact multiple of `step`. -/
theorem energy_score_blocks (target : List ℝ) (P : List (List ℝ)) (step : ℕ)
    (h : 0 < step) :
    energy_score target P step
      = rmean ((List.range ((target.length - 1) / step)).map
          (fun k => block_score target P step ((k + 1) * step))) := by
  unfold energy_score pyRangeStep
  rw [if_neg (by omega)]
  have hcount : (target.length - step + step - 1) / step = (target.length - 1) / step := by
    rcases le_or_lt step target.length with hle | hlt
    · congr 1
      omega
    · rw [Nat.div_eq_of_lt (by omega), Nat.div_eq_of_lt (by omega)]
  rw [hcount]
  congr 1
  rw [List.map_map]
  apply List.map_congr_left
  intro k _
  simp only [Function.comp_apply]
  congr 1
  ring

/-- Claim C8 witness: the amended statement at `target = [0, 0]`,
scenarios `[[0], [0]]`, `step = 1`. -/
theorem energy_score_blocks_witness :
    0 < 1
    ∧ energy_score [0, 0] [[0], [0]] 1
      = rmean ((List.range (([(0 : ℝ), 0].length - 1) / 1)).map
          (fun k => block_score [0, 0] [[0], [0]] 1 ((k + 1) * 1))) :=
  ⟨by decide, energy_score_blocks [0, 0] [[0], [0]] 1 (by decide)⟩

end DSIUtil
